import Mathlib

/-!
Verification of the reconciliation / batched-mutation engine of the
`cmdupload` package (file `cmdupload/upload.go`): the asset-index advice
algorithm (`ShouldUpload`, `compareDate`), the per-file handler
(`handleAsset`, `UploadAsset`), and the deferred flush phases
(`Run`, `ManageAlbums`, `DeleteServerAssets`, `DeleteLocalAssets`),
together with a model of the concurrent accumulation lists (`xsync.List`).

Times are modelled as `Int` nanoseconds (Go `time.Time` differences are
`time.Duration`, i.e. int64 nanoseconds; realistic capture timestamps are
far from the int64 bounds, so `Int` is faithful on the inputs of
interest).  Byte sizes are `Int` (Go `int`).  Human-readable log/advice
message strings (pure presentation, including floating point byte
formatting) are elided; every claim is about advice codes, referenced
assets, state and the sequence of external calls.
-/

namespace ImmichGo

/-! ## Go `path` / `path/filepath` helpers used by `ShouldUpload` -/

/-- Go `path.Ext`: scanning the path backwards, the suffix starting at the
final dot in the final slash-separated element; `""` if there is none.
The first argument is the reversed character list of the path, the second
the (in-order) characters already passed. -/
def extAux : List Char → List Char → Option (List Char)
  | [], _ => none
  | c :: rest, acc =>
    if c = '/' then none
    else if c = '.' then some (c :: acc)
    else extAux rest (c :: acc)

/-- Go `path.Ext`. -/
def pathExt (p : String) : String :=
  match extAux p.data.reverse [] with
  | some l => String.mk l
  | none => ""

/-- Drop trailing `'/'` characters (on the reversed character list). -/
def dropTrailingSlashes : List Char → List Char
  | [] => []
  | c :: rest => if c = '/' then dropTrailingSlashes rest else c :: rest

/-- Characters of the last path element: take (from the reversed list)
until a `'/'` is met, producing the element in order. -/
def lastElemAux : List Char → List Char → List Char
  | [], acc => acc
  | c :: rest, acc => if c = '/' then acc else lastElemAux rest (c :: acc)

/-- Go `filepath.Base` (unix separator): `"."` for the empty path, strip
trailing slashes, the part after the last slash, `"/"` if that is empty. -/
def filepathBase (p : String) : String :=
  if p = "" then "."
  else
    let stripped := dropTrailingSlashes p.data.reverse
    let base := lastElemAux stripped []
    if base.isEmpty then "/" else String.mk base

/-- Drop (from the reversed list) the last path element, i.e. everything
up to and including the char before the last slash is removed.  Returns
the reversed remainder including the slash. -/
def dropLastElem : List Char → List Char
  | [] => []
  | c :: rest => if c = '/' then c :: rest else dropLastElem rest

/-- Go `path.Dir`: everything before the final slash, trailing slashes
then removed; `"."` if there is no slash.  (Go additionally runs
`path.Clean` on the result, collapsing `.`/`..`/duplicate-slash segments;
that cleaning is not modelled — the function only feeds the
folder-derived album name, whose exact spelling no claim depends on.) -/
def pathDir (p : String) : String :=
  let rest := dropLastElem p.data.reverse
  -- rest still carries the final slash; Go keeps path[:i] (slash excluded)
  let dir := dropTrailingSlashes (match rest with
    | [] => []
    | _ :: r => r)
  match rest with
  | [] => "."
  | _ => if dir.isEmpty then "/" else String.mk dir.reverse

/-! ## Data model -/

/-- Embeds `immich.Asset` as used by the engine: identifier, original file name,
EXIF capture timestamp (`ExifInfo.DateTimeOriginal`, ns), EXIF byte size
(`ExifInfo.FileSizeInByte`), album memberships (names), and the
`JustUploaded` flag set on assets created during this run. -/
structure RemoteAsset where
  id : String
  originalFileName : String
  dateTimeOriginal : Int
  fileSizeInByte : Int
  albums : List String
  justUploaded : Bool
deriving Repr, DecidableEq

/-- Embeds `browser.LocalAlbum`: a local album hint (path and name). -/
structure LocalAlbum where
  path : String
  name : String
deriving Repr, DecidableEq

/-- Embeds `browser.LocalAssetFile` as consumed by the engine.  `dateTaken` is in
ns with `0` standing for Go's zero `time.Time` (`IsZero`). -/
structure LocalAssetFile where
  fileName : String
  title : String
  dateTaken : Int
  size : Int
  albums : List LocalAlbum
  fromPartner : Bool
  trashed : Bool
deriving Repr, DecidableEq

/-- Modelled from the spec: the device-scoped identifier is a
"deterministic function of normalized filename, size, capture time"
(`browser.LocalAssetFile.DeviceAssetID` is not part of the sources under
verification; only this determinism is relied on). -/
def LocalAssetFile.deviceAssetID (la : LocalAssetFile) : String :=
  filepathBase la.fileName ++ "-" ++ toString la.size ++ "-" ++ toString la.dateTaken

/-- Modelled from the spec: the Asset Index keeps two lookup structures
over the non-trashed remote assets, "identifier → RemoteAsset, and
normalized display name → list of RemoteAssets sharing that name"
(`AssetIndex.ByID` / `AssetIndex.ByName`, built by `ReIndex`, are not part
of the sources under verification). -/
structure AssetIndex where
  byID : String → Option RemoteAsset
  byName : String → List RemoteAsset

/-- Embeds `AdviceCode` (`IDontKnow` is declared first in the Go `iota` block). -/
inductive AdviceCode where
  | IDontKnow
  | SmallerOnServer
  | BetterOnServer
  | SameOnServer
  | NotOnServer
deriving Repr, DecidableEq

/-- Embeds `Advice` minus the human-readable `Message` string (presentation
only, uses floating-point byte formatting; no claim depends on it). -/
structure Advice where
  advice : AdviceCode
  serverAsset : Option RemoteAsset
  localAsset : Option LocalAssetFile
deriving Repr, DecidableEq

/-- Embeds `adviceIDontKnow` — defined in the source but called from nowhere. -/
def adviceIDontKnow (la : LocalAssetFile) : Advice :=
  { advice := .IDontKnow, serverAsset := none, localAsset := some la }

def adviceSameOnServer (sa : RemoteAsset) : Advice :=
  { advice := .SameOnServer, serverAsset := some sa, localAsset := none }

def adviceSmallerOnServer (sa : RemoteAsset) : Advice :=
  { advice := .SmallerOnServer, serverAsset := some sa, localAsset := none }

def adviceBetterOnServer (sa : RemoteAsset) : Advice :=
  { advice := .BetterOnServer, serverAsset := some sa, localAsset := none }

def adviceNotOnServer : Advice :=
  { advice := .NotOnServer, serverAsset := none, localAsset := none }

/-! ## The advice engine -/

/-- Nanoseconds in one minute (`time.Minute`). -/
def minuteNS : Int := 60 * 1000000000

/-- Embeds `compareDate` from the source:
`diff := d1.Sub(d2)`; `-1` when `diff < -5*time.Minute`, `+1` when
`diff >= 5*time.Minute`, else `0`. -/
def compareDate (d1 d2 : Int) : Int :=
  let diff := d1 - d2
  if diff < -5 * minuteNS then -1
  else if 5 * minuteNS ≤ diff then 1
  else 0

/-- The `for _, sa = range l` loop body of `ShouldUpload`: the first
candidate with `compareDate == 0` decides by the sign of
`size - sa.ExifInfo.FileSizeInByte`; others are skipped. -/
def nameCandidateAdvice (dateTaken size : Int) : List RemoteAsset → Option Advice
  | [] => none
  | sa :: rest =>
    let cd := compareDate dateTaken sa.dateTimeOriginal
    let cs := size - sa.fileSizeInByte
    if cd = 0 ∧ cs = 0 then some (adviceSameOnServer sa)
    else if cd = 0 ∧ cs > 0 then some (adviceSmallerOnServer sa)
    else if cd = 0 ∧ cs < 0 then some (adviceBetterOnServer sa)
    else nameCandidateAdvice dateTaken size rest

/-- The base display name `ShouldUpload` uses for the `ByName` lookup:
`filename := la.Title`, extended by `path.Ext(la.FileName)` when `Title`
has no extension, then `filepath.Base`. -/
def lookupName (la : LocalAssetFile) : String :=
  let filename := if pathExt la.title = "" then la.title ++ pathExt la.fileName else la.title
  filepathBase filename

/-- Embeds `AssetIndex.ShouldUpload`, returning the Go pair `(*Advice, error)` as
`(Option Advice × Option String)`. -/
def ShouldUpload (ai : AssetIndex) (la : LocalAssetFile) :
    Option Advice × Option String :=
  let ID := la.deviceAssetID
  match ai.byID ID with
  | some sa => (some (adviceSameOnServer sa), none)
  | none =>
    let l := ai.byName (lookupName la)
    match nameCandidateAdvice la.dateTaken la.size l with
    | some adv => (some adv, none)
    | none => (some adviceNotOnServer, none)

/-- The advice the size trichotomy of the name-candidate loop produces
for a time-equal candidate `sa` against local byte size `size`. -/
def sizeAdvice (sa : RemoteAsset) (size : Int) : Advice :=
  if size - sa.fileSizeInByte = 0 then adviceSameOnServer sa
  else if size - sa.fileSizeInByte > 0 then adviceSmallerOnServer sa
  else adviceBetterOnServer sa

/-- Candidate loop = "first time-equal candidate wins, judged by size". -/
lemma nameCandidateAdvice_eq_find (d s : Int) (l : List RemoteAsset) :
    nameCandidateAdvice d s l =
      (l.find? (fun sa => compareDate d sa.dateTimeOriginal == 0)).map
        (fun sa => sizeAdvice sa s) := by
  induction l with
  | nil => rfl
  | cons sa rest ih =>
    by_cases hcd : compareDate d sa.dateTimeOriginal = 0
    · rcases lt_trichotomy (s - sa.fileSizeInByte) 0 with h | h | h
      · have h1 : ¬(s - sa.fileSizeInByte = 0) := by omega
        have h2 : ¬(s - sa.fileSizeInByte > 0) := by omega
        simp [nameCandidateAdvice, List.find?_cons_of_pos, hcd, sizeAdvice,
          h, h1, h2]
        rw [if_neg (by omega)]
      · simp [nameCandidateAdvice, List.find?_cons_of_pos, hcd, sizeAdvice, h]
      · have h1 : ¬(s - sa.fileSizeInByte = 0) := by omega
        have h2 : ¬(s - sa.fileSizeInByte < 0) := by omega
        simp [nameCandidateAdvice, List.find?_cons_of_pos, hcd, sizeAdvice,
          h, h1, h2]
        rw [if_pos (by omega)]
    · simp [nameCandidateAdvice, List.find?_cons_of_neg, hcd, ih]

/-- The candidate loop never produces the `IDontKnow` disposition. -/
lemma nameCandidateAdvice_ne_IDontKnow (d s : Int) (l : List RemoteAsset)
    (adv : Advice) (h : nameCandidateAdvice d s l = some adv) :
    adv.advice ≠ .IDontKnow := by
  induction l with
  | nil => simp [nameCandidateAdvice] at h
  | cons sa rest ih =>
    simp only [nameCandidateAdvice] at h
    split_ifs at h <;>
      first
        | (cases h; simp [adviceSameOnServer, adviceSmallerOnServer,
            adviceBetterOnServer])
        | exact ih h

/-! ## Sample data for witnesses and counterexamples -/

def saC1 : RemoteAsset :=
  { id := "srv-1", originalFileName := "IMG_0001.JPG", dateTimeOriginal := 0,
    fileSizeInByte := 1000, albums := [], justUploaded := false }

/-- A local file whose name, size and capture time all disagree with
`saC1`, but whose device-scoped identifier is indexed to `saC1`. -/
def laC1 : LocalAssetFile :=
  { fileName := "photos/OTHER.PNG", title := "OTHER.PNG",
    dateTaken := 99 * minuteNS, size := 5, albums := [],
    fromPartner := false, trashed := false }

def aiC1 : AssetIndex :=
  { byID := fun s => if s = laC1.deviceAssetID then some saC1 else none,
    byName := fun _ => [] }

/-- Name-matched candidate with a 10-minute time difference: skipped. -/
def saC2a : RemoteAsset :=
  { id := "srv-2a", originalFileName := "IMG_0002.JPG", dateTimeOriginal := 0,
    fileSizeInByte := 2000000, albums := [], justUploaded := false }

/-- First time-equal candidate, smaller than the local file: decides. -/
def saC2b : RemoteAsset :=
  { id := "srv-2b", originalFileName := "IMG_0002.JPG",
    dateTimeOriginal := 10 * minuteNS, fileSizeInByte := 1500000,
    albums := [], justUploaded := false }

/-- Later time-equal candidate of equal size: never consulted. -/
def saC2c : RemoteAsset :=
  { id := "srv-2c", originalFileName := "IMG_0002.JPG",
    dateTimeOriginal := 10 * minuteNS, fileSizeInByte := 2000000,
    albums := [], justUploaded := false }

def laC2 : LocalAssetFile :=
  { fileName := "photos/IMG_0002.JPG", title := "IMG_0002.JPG",
    dateTaken := 10 * minuteNS, size := 2000000, albums := [],
    fromPartner := false, trashed := false }

def aiC2 : AssetIndex :=
  { byID := fun _ => none,
    byName := fun n => if n = "IMG_0002.JPG" then [saC2a, saC2b, saC2c] else [] }

/-! ## Claims about the advice engine -/

/-- C1: whenever the Asset Index maps the local file's device-scoped
identifier to an asset `sa`, `ShouldUpload` returns `SameOnServer`
referencing `sa` with a nil error — for every local file, whatever its
name, size or capture time — and any name table whatsoever yields the
same result, so no name-matched candidate is consulted. -/
theorem shouldUpload_deviceID_hit (ai : AssetIndex) (la : LocalAssetFile)
    (sa : RemoteAsset) (h : ai.byID la.deviceAssetID = some sa) :
    ShouldUpload ai la = (some (adviceSameOnServer sa), none) ∧
    ∀ nameTbl : String → List RemoteAsset,
      ShouldUpload ⟨ai.byID, nameTbl⟩ la = (some (adviceSameOnServer sa), none) := by
  constructor
  · simp [ShouldUpload, h]
  · intro nameTbl
    simp [ShouldUpload, h]

/-- Witness for C1 at a concrete index and local file whose name, size
and time all disagree with the indexed asset. -/
theorem shouldUpload_deviceID_hit_witness :
    ShouldUpload aiC1 laC1 = (some (adviceSameOnServer saC1), none) :=
  (shouldUpload_deviceID_hit aiC1 laC1 saC1 (by simp [aiC1])).1

/-- C2: with no identifier hit, the first name-matched candidate (in the
index's list order) whose capture time compares equal decides the advice
by the size trichotomy (`sizeAdvice`: equal → SameOnServer, local larger
→ SmallerOnServer, local smaller → BetterOnServer); time-unequal
candidates are skipped (`List.find?` semantics), and with no time-equal
candidate (or no name match at all, the list being empty) the advice is
NotOnServer.  No search for a globally best candidate happens. -/
theorem shouldUpload_name_candidates (ai : AssetIndex) (la : LocalAssetFile)
    (hid : ai.byID la.deviceAssetID = none) :
    (∀ sa, (ai.byName (lookupName la)).find?
        (fun c => compareDate la.dateTaken c.dateTimeOriginal == 0) = some sa →
      ShouldUpload ai la = (some (sizeAdvice sa la.size), none)) ∧
    ((ai.byName (lookupName la)).find?
        (fun c => compareDate la.dateTaken c.dateTimeOriginal == 0) = none →
      ShouldUpload ai la = (some adviceNotOnServer, none)) := by
  constructor
  · intro sa hfind
    simp [ShouldUpload, hid, nameCandidateAdvice_eq_find, hfind]
  · intro hfind
    simp [ShouldUpload, hid, nameCandidateAdvice_eq_find, hfind]

/-- Witness for C2: the 10-minutes-off candidate `saC2a` is skipped, the
first time-equal candidate `saC2b` (smaller on the server) decides, and
the equal-size candidate `saC2c` behind it is never consulted. -/
theorem shouldUpload_name_candidates_witness :
    ShouldUpload aiC2 laC2 = (some (adviceSmallerOnServer saC2b), none) := by
  have h := (shouldUpload_name_candidates aiC2 laC2 rfl).1 saC2b (by decide)
  rw [h]
  decide

/-- C3 counterexample: a local capture time exactly 5 minutes EARLIER
than the candidate (difference of −5 minutes) is treated as equal
(`compareDate = 0`), not as strictly earlier, although the claim says a
difference of 5 minutes or more in either direction is a non-match. -/
theorem compareDate_boundary_cex :
    compareDate 0 (5 * minuteNS) = 0 ∧ (0 : Int) - 5 * minuteNS = -(5 * minuteNS) := by
  constructor
  · decide
  · norm_num

/-- C3 (amended): `compareDate` is a half-open window comparison — equal
exactly when −5 min ≤ d1 − d2 < +5 min, strictly earlier (−1) exactly
when d1 − d2 < −5 min, strictly later (+1) exactly when d1 − d2 ≥ +5 min.
So only a difference of MORE than 5 minutes when the local time is
earlier, or AT LEAST 5 minutes when it is later, is a non-match. -/
theorem compareDate_characterization (d1 d2 : Int) :
    (compareDate d1 d2 = 0 ↔ -(5 * minuteNS) ≤ d1 - d2 ∧ d1 - d2 < 5 * minuteNS) ∧
    (compareDate d1 d2 = -1 ↔ d1 - d2 < -(5 * minuteNS)) ∧
    (compareDate d1 d2 = 1 ↔ 5 * minuteNS ≤ d1 - d2) := by
  simp only [compareDate, minuteNS]
  split_ifs <;> refine ⟨?_, ?_, ?_⟩ <;> constructor <;> intro h <;>
    first
      | exact h.elim
      | omega

/-- Witness for the amended C3 at a concrete pair: a difference of
exactly +5 minutes compares as strictly later. -/
theorem compareDate_characterization_witness :
    compareDate (5 * minuteNS) 0 = 1 :=
  ((compareDate_characterization (5 * minuteNS) 0).2.2).mpr (by norm_num)

/-- C9: `ShouldUpload` always returns a nil error and a non-nil advice,
and the advice is never the `IDontKnow` disposition. -/
theorem shouldUpload_total_never_IDontKnow (ai : AssetIndex) (la : LocalAssetFile) :
    (ShouldUpload ai la).2 = none ∧
    ∃ adv, (ShouldUpload ai la).1 = some adv ∧ adv.advice ≠ .IDontKnow := by
  cases hid : ai.byID la.deviceAssetID with
  | some sa => simp [ShouldUpload, hid, adviceSameOnServer]
  | none =>
    cases hnc : nameCandidateAdvice la.dateTaken la.size (ai.byName (lookupName la)) with
    | none => simp [ShouldUpload, hid, hnc, adviceNotOnServer]
    | some adv =>
      have hne := nameCandidateAdvice_ne_IDontKnow _ _ _ _ hnc
      simp [ShouldUpload, hid, hnc, hne]

/-- Witness for C9 at a concrete index and local file. -/
theorem shouldUpload_total_never_IDontKnow_witness :
    (ShouldUpload aiC1 laC1).2 = none ∧
    ∃ adv, (ShouldUpload aiC1 laC1).1 = some adv ∧ adv.advice ≠ .IDontKnow :=
  shouldUpload_total_never_IDontKnow aiC1 laC1

/-! ## Engine state, configuration, and external calls

The stateful part of `UpCmd` is embedded as explicit state passing; every
call to a collaborator (the immich client, `uuid`, file removal) is
recorded as an `ExtCall` event, with the collaborator's answers supplied
by a `CallEnv` oracle.  Logging is elided throughout. -/

/-- The flag fields of `UpCmd` the engine reads, plus the two external
predicates used by the guards (`fshelper.MimeFromExt` succeeding on an
extension, and `immich.DateRange` — both outside the sources under
verification, so kept abstract as configuration-supplied predicates). -/
structure Config where
  googlePhotos : Bool
  delete : Bool
  createAlbumAfterFolder : Bool
  importIntoAlbum : String
  partnerAlbum : String
  importFromAlbum : String
  createAlbums : Bool
  keepTrashed : Bool
  keepPartner : Bool
  keepUntitled : Bool
  useFolderAsAlbumName : Bool
  dryRun : Bool
  forceSidecar : Bool
  createStacks : Bool
  mimeOK : String → Bool
  dateRangeSet : Bool
  dateRangeInRange : Int → Bool

/-- One entry of the stack builder's queue — modelled from the spec:
"ordered queue of (identifier, filename, timestamp) triples"
(`stacking.StackBuilder` is not part of the sources under verification). -/
structure StackEntry where
  id : String
  fileName : String
  dateTaken : Int
deriving Repr, DecidableEq

/-- One stack produced by `StackBuilder.Stacks()`: cover, members, names. -/
structure StackRecord where
  coverID : String
  ids : List String
  names : List String
deriving Repr, DecidableEq

/-- Embeds `immich.AlbumSimplified` as used by `ManageAlbums`. -/
structure AlbumSimplified where
  id : String
  albumName : String
deriving Repr, DecidableEq

/-- Embeds `immich.UpdateAlbumResult` (per-identifier outcome of an album append). -/
structure UpdateAlbumResult where
  id : String
  success : Bool
  error : String
deriving Repr, DecidableEq

/-- Embeds `immich.AssetResponse` as used by `UploadAsset`. -/
structure AssetResponse where
  id : String
  duplicate : Bool
deriving Repr, DecidableEq

/-- The mutable state of `UpCmd` during a run: the asset index, the two
deletion lists (`xsync.List` contents in push order), the counters, the
stack builder's queue, and the album accumulator (`updateAlbums`,
a map from album name to a set of asset IDs, modelled as an association
list in insertion order with duplicate-free ID lists). -/
structure UpState where
  assetIndex : AssetIndex
  deleteServerList : List RemoteAsset
  deleteLocalList : List LocalAssetFile
  mediaUploaded : Int
  mediaCount : Int
  stacksQueue : List StackEntry  -- Go field `stacks` (`stacks` is a reserved token here)
  updateAlbums : List (String × List String)

/-- External calls the engine can issue. -/
inductive ExtCall where
  | assetUpload (fileName : String)
  | updateAssets (ids : List String) (coverID : String)
  | getAllAlbums
  | addAssetToAlbum (albumID : String) (ids : List String)
  | createAlbum (name : String) (ids : List String)
  | deleteAssets (ids : List String)
  | removeLocalFile (fileName : String)
deriving Repr, DecidableEq

/-- Whether a call mutates the remote catalog or the local filesystem
(everything except the read-only album listing). -/
def ExtCall.mutates : ExtCall → Bool
  | .getAllAlbums => false
  | _ => true

/-- Oracle for the collaborators' answers: upload outcome per file name,
the uuid generated in dry-run mode, the album listing, per-call album
append/create outcomes, the bulk-delete outcome, per-file local removal
outcomes, and the stack builder's grouping (`Stacks()`, whose
burst/raw+jpeg heuristic the spec leaves to the stacking helper — kept
abstract). -/
structure CallEnv where
  uploadResult : String → Except String AssetResponse
  newUUID : String
  serverAlbums : Except String (List AlbumSimplified)
  addAssetToAlbum : String → List String → Except String (List UpdateAlbumResult)
  createAlbum : String → List String → Except String Unit
  deleteAssets : List String → Option String
  removeLocal : String → Option String
  stacksOf : List StackEntry → List StackRecord

/-- Modelled from the spec: `AddLocalAsset` "inserts a new RemoteAsset
entry synthesized from the local file and marks it just-created"
(the `AssetIndex` mutator is not part of the sources under
verification). -/
def AssetIndex.AddLocalAsset (ai : AssetIndex) (la : LocalAssetFile) (id : String) :
    AssetIndex :=
  let sa : RemoteAsset :=
    { id := id, originalFileName := filepathBase la.fileName,
      dateTimeOriginal := la.dateTaken, fileSizeInByte := la.size,
      albums := [], justUploaded := true }
  { byID := fun s => if s = la.deviceAssetID then some sa else ai.byID s,
    byName := fun s =>
      if s = filepathBase la.fileName then ai.byName s ++ [sa] else ai.byName s }

/-- Modelled from the spec: `browser.LocalAssetFile.AddAlbum` records an
extra album hint on the local file. -/
def LocalAssetFile.AddAlbum (a : LocalAssetFile) (al : LocalAlbum) : LocalAssetFile :=
  { a with albums := a.albums ++ [al] }

/-- Embeds `albumName` from the source. -/
def albumName (cfg : Config) (al : LocalAlbum) : String :=
  let name := al.name
  if cfg.googlePhotos then
    if cfg.useFolderAsAlbumName then al.path
    else if cfg.keepUntitled ∧ name = "" then al.path
    else name
  else name

/-- Lookup in the `updateAlbums` association list. -/
def albumsLookup (m : List (String × List String)) (album : String) :
    Option (List String) :=
  (m.find? (fun p => p.1 == album)).map Prod.snd

/-- Replace-or-append in the `updateAlbums` association list. -/
def albumsInsert : List (String × List String) → String → List String →
    List (String × List String)
  | [], album, ids => [(album, ids)]
  | (a, l) :: rest, album, ids =>
    if a = album then (a, ids) :: rest else (a, l) :: albumsInsert rest album ids

/-- Embeds `AddToAlbum` from the source: `l := updateAlbums[album]` (fresh map if
absent), `l[ID] = nil`, store back.  The per-album ID set keeps insertion
order. -/
def AddToAlbum (st : UpState) (ID album : String) : UpState :=
  let l := (albumsLookup st.updateAlbums album).getD []
  let l := if ID ∈ l then l else l ++ [ID]
  { st with updateAlbums := albumsInsert st.updateAlbums album l }

/-- The album hints `UploadAsset` collects for a freshly uploaded asset
(the `albums := ...` block of the source). -/
def uploadAlbums (cfg : Config) (a : LocalAssetFile) : List LocalAlbum :=
  if cfg.importIntoAlbum ≠ "" then
    [{ path := cfg.importIntoAlbum, name := cfg.importIntoAlbum }]
  else if cfg.googlePhotos then
    a.albums ++
      (if cfg.partnerAlbum ≠ "" ∧ a.fromPartner then
        [{ path := cfg.partnerAlbum, name := cfg.partnerAlbum }] else [])
  else if cfg.createAlbumAfterFolder then
    let album := filepathBase (pathDir a.fileName)
    if album ≠ "" ∧ album ≠ "." then [{ path := album, name := album }] else []
  else []

/-- The album names derived from those hints (Google-Photos hints with an
empty resolved name are skipped, as in the source's `names` loop). -/
def uploadAlbumNames (cfg : Config) (a : LocalAssetFile) : List String :=
  (uploadAlbums cfg a).foldr
    (fun al acc =>
      let name := albumName cfg al
      if cfg.googlePhotos ∧ name = "" then acc else name :: acc) []

/-- The post-upload bookkeeping of `UploadAsset` once a non-duplicate
response `respID` is in hand: index insertion, upload counter, stack
builder entry, album accumulation (guard condition as in the source). -/
def recordUpload (cfg : Config) (st : UpState) (a : LocalAssetFile)
    (respID : String) : UpState :=
  let st := { st with assetIndex := st.assetIndex.AddLocalAsset a respID,
                      mediaUploaded := st.mediaUploaded + 1 }
  let st :=
    if cfg.createStacks then
      { st with stacksQueue :=
          st.stacksQueue ++ [{ id := respID, fileName := a.fileName, dateTaken := a.dateTaken }] }
    else st
  if cfg.importIntoAlbum ≠ "" ∨
      (cfg.googlePhotos ∧ (cfg.createAlbums ∨ cfg.partnerAlbum ≠ "")) ∨
      (¬cfg.googlePhotos ∧ cfg.createAlbumAfterFolder) then
    (uploadAlbumNames cfg a).foldl (fun s n => AddToAlbum s respID n) st
  else st

/-- Embeds `UploadAsset` from the source.  In non-dry-run mode the client is
called (one `assetUpload` event); an error or a duplicate response leaves
the state untouched.  In dry-run mode no client call happens and the
response ID is a fresh uuid.  (The `ForceSidecar` block only shapes the
uploaded payload and is elided.) -/
def UploadAsset (cfg : Config) (env : CallEnv) (st : UpState) (a : LocalAssetFile) :
    UpState × List ExtCall :=
  if !cfg.dryRun then
    match env.uploadResult a.fileName with
    | .error _ => (st, [.assetUpload a.fileName])
    | .ok resp =>
      if resp.duplicate then (st, [.assetUpload a.fileName])
      else (recordUpload cfg st a resp.id, [.assetUpload a.fileName])
  else
    -- dry-run: `resp.ID = uuid.NewString()`, `Duplicate` stays false
    (recordUpload cfg st a env.newUUID, [])

/-- Embeds `isInAlbum` from the source. -/
def isInAlbum (cfg : Config) (a : LocalAssetFile) (album : String) : Bool :=
  a.albums.any (fun al => albumName cfg al == album)

/-- The `KeepUntitled` filtering of the local file's album hints. -/
def filterUntitled (cfg : Config) (a : LocalAssetFile) : LocalAssetFile :=
  if !cfg.keepUntitled then
    { a with albums := a.albums.filter (fun al => al.name ≠ "") }
  else a

/-- The `switch advice.Advice` of `handleAsset`.  The `serverAsset`
dereference in the Smaller/Same/Better branches would be a nil-pointer
panic in Go if the advice carried no asset; `ShouldUpload`'s constructors
always populate it there, so the `none` fallbacks are unreachable. -/
def dispatchAdvice (cfg : Config) (env : CallEnv) (st : UpState)
    (a : LocalAssetFile) (advice : Advice) : UpState × List ExtCall × Option String :=
  match advice.advice with
  | .NotOnServer =>
    let r := UploadAsset cfg env st a
    let st := r.1
    let st :=
      if cfg.delete then { st with deleteLocalList := st.deleteLocalList ++ [a] }
      else st
    (st, r.2, none)
  | .SmallerOnServer =>
    match advice.serverAsset with
    | none => (st, [], none)
    | some sa =>
      let a := sa.albums.foldl (fun acc n => acc.AddAlbum { path := "", name := n }) a
      let r := UploadAsset cfg env st a
      let st := { r.1 with deleteServerList := r.1.deleteServerList ++ [sa] }
      let st :=
        if cfg.delete then { st with deleteLocalList := st.deleteLocalList ++ [a] }
        else st
      (st, r.2, none)
  | .SameOnServer =>
    match advice.serverAsset with
    | none => (st, [], none)
    | some sa =>
      let st :=
        if cfg.createAlbums then
          a.albums.foldl (fun s al => AddToAlbum s sa.id (albumName cfg al)) st
        else st
      let st :=
        if cfg.importIntoAlbum ≠ "" then AddToAlbum st sa.id cfg.importIntoAlbum
        else st
      let st :=
        if cfg.partnerAlbum ≠ "" ∧ a.fromPartner then AddToAlbum st sa.id cfg.partnerAlbum
        else st
      if !sa.justUploaded then
        let st :=
          if cfg.delete then { st with deleteLocalList := st.deleteLocalList ++ [a] }
          else st
        (st, [], none)
      else (st, [], none)
  | .BetterOnServer =>
    match advice.serverAsset with
    | none => (st, [], none)
    | some sa =>
      let st :=
        if cfg.createAlbums then
          a.albums.foldl (fun s al => AddToAlbum s sa.id (albumName cfg al)) st
        else st
      let st :=
        if cfg.partnerAlbum ≠ "" ∧ a.fromPartner then AddToAlbum st sa.id cfg.partnerAlbum
        else st
      (st, [], none)
  | .IDontKnow => (st, [], none)

/-- Embeds `handleAsset` from the source: counter, guards (each early `return
nil` leaves everything but `mediaCount` untouched), untitled-album
filtering, `ShouldUpload`, dispatch. -/
def handleAsset (cfg : Config) (env : CallEnv) (st : UpState)
    (a : LocalAssetFile) : UpState × List ExtCall × Option String :=
  let st := { st with mediaCount := st.mediaCount + 1 }
  if !(cfg.mimeOK (pathExt a.fileName)) then (st, [], none)
  else if !cfg.keepPartner && a.fromPartner then (st, [], none)
  else if !cfg.keepTrashed && a.trashed then (st, [], none)
  else if cfg.importFromAlbum.length > 0 && !(isInAlbum cfg a cfg.importFromAlbum) then
    (st, [], none)
  else if cfg.dateRangeSet && a.dateTaken == 0 then (st, [], none)
  else if cfg.dateRangeSet && !(cfg.dateRangeInRange a.dateTaken) then (st, [], none)
  else
    let a := filterUntitled cfg a
    match ShouldUpload st.assetIndex a with
    | (_, some e) => (st, [], some e)
    | (none, none) => (st, [], none)
    | (some advice, none) => dispatchAdvice cfg env st a advice

/-! ## Flush phases: stacks, albums, deletions -/

/-- The inner `for _, sal := range serverAlbums` of `ManageAlbums`: every
server album whose name matches gets an `AddAssetToAlbum` call (unless
dry-run); an error aborts with the wrapped message; the boolean is the
source's `found` flag. -/
def updateExisting (cfg : Config) (env : CallEnv) (album : String)
    (ids : List String) : List AlbumSimplified → Bool →
    Option String × List ExtCall × Bool
  | [], found => (none, [], found)
  | sal :: rest, found =>
    if sal.albumName = album then
      if !cfg.dryRun then
        match env.addAssetToAlbum sal.id ids with
        | .error e =>
          (some ("can't update the album list from the server: " ++ e),
            [.addAssetToAlbum sal.id ids], true)
        | .ok _ =>
          let r := updateExisting cfg env album ids rest true
          (r.1, .addAssetToAlbum sal.id ids :: r.2.1, r.2.2)
      else updateExisting cfg env album ids rest true
    else updateExisting cfg env album ids rest found

/-- The outer `for album, list := range app.updateAlbums` of
`ManageAlbums`: update matching server albums, else create (the source's
`list != nil` guard always holds — `AddToAlbum` never stores a nil map);
any error is returned immediately, so later entries are not processed. -/
def manageEntries (cfg : Config) (env : CallEnv)
    (serverAlbums : List AlbumSimplified) :
    List (String × List String) → Option String × List ExtCall
  | [] => (none, [])
  | (album, ids) :: rest =>
    match updateExisting cfg env album ids serverAlbums false with
    | (some e, tr, _) => (some e, tr)
    | (none, tr, true) =>
      let r := manageEntries cfg env serverAlbums rest
      (r.1, tr ++ r.2)
    | (none, tr, false) =>
      if !cfg.dryRun then
        match env.createAlbum album ids with
        | .error e =>
          (some ("can't create the album list from the server: " ++ e),
            tr ++ [.createAlbum album ids])
        | .ok _ =>
          let r := manageEntries cfg env serverAlbums rest
          (r.1, tr ++ [.createAlbum album ids] ++ r.2)
      else
        let r := manageEntries cfg env serverAlbums rest
        (r.1, tr ++ r.2)

/-- Embeds `ManageAlbums` from the source: nothing to do on an empty
accumulator; the album listing happens even in dry-run mode; a listing
failure aborts; then the per-entry loop. -/
def ManageAlbums (cfg : Config) (env : CallEnv) (st : UpState) :
    Option String × List ExtCall :=
  if st.updateAlbums.isEmpty then (none, [])
  else
    match env.serverAlbums with
    | .error e =>
      (some ("can't get the album list from the server: " ++ e), [.getAllAlbums])
    | .ok sals =>
      let r := manageEntries cfg env sals st.updateAlbums
      (r.1, .getAllAlbums :: r.2)

/-- Embeds `DeleteServerAssets` from the source: one batched `DeleteAssets` call,
skipped in dry-run mode. -/
def DeleteServerAssets (cfg : Config) (env : CallEnv) (ids : List String) :
    Option String × List ExtCall :=
  if !cfg.dryRun then (env.deleteAssets ids, [.deleteAssets ids])
  else (none, [])

/-- The `deleteLocalList.All` loop of `DeleteLocalAssets`.  Modelled from
the spec and the source's usage: `xsync.List.All` (not among the sources
under verification) iterates the pushed items in order and stops as soon
as the callback returns `false` — the Go `Range` convention the source
relies on: the dry-run branch returns `true` to continue, the removal
branch returns `err == nil`.  So the first failed removal stops the
iteration and its error is what `DeleteLocalAssets` returns. -/
def deleteLocalLoop (cfg : Config) (env : CallEnv) :
    List LocalAssetFile → Option String × List ExtCall
  | [] => (none, [])
  | a :: rest =>
    if cfg.dryRun then deleteLocalLoop cfg env rest
    else
      match env.removeLocal a.fileName with
      | none =>
        let r := deleteLocalLoop cfg env rest
        (r.1, .removeLocalFile a.fileName :: r.2)
      | some e => (some e, [.removeLocalFile a.fileName])

/-- Embeds `DeleteLocalAssets` from the source. -/
def DeleteLocalAssets (cfg : Config) (env : CallEnv) (st : UpState) :
    Option String × List ExtCall :=
  deleteLocalLoop cfg env st.deleteLocalList

/-- The stack-creation block of `Run`: for every stack, an `UpdateAssets`
call unless dry-run (an error there is only logged). -/
def stacksPhase (cfg : Config) (env : CallEnv) (st : UpState) : List ExtCall :=
  if cfg.createStacks then
    (env.stacksOf st.stacksQueue).foldr
      (fun s acc => (if !cfg.dryRun then [ExtCall.updateAssets s.ids s.coverID] else []) ++ acc)
      []
  else []

/-- The guard of the album-management block of `Run`. -/
def albumPhaseGuard (cfg : Config) : Bool :=
  cfg.createAlbums || cfg.createAlbumAfterFolder ||
    (cfg.keepPartner && cfg.partnerAlbum.length > 0) ||
    cfg.importIntoAlbum.length > 0

/-- The album-management block of `Run`: `ManageAlbums`' error is logged
and reset to nil (`err = nil` in the source), so the phase never
contributes an error to the run. -/
def albumPhase (cfg : Config) (env : CallEnv) (st : UpState) :
    Option String × List ExtCall :=
  if albumPhaseGuard cfg then (none, (ManageAlbums cfg env st).2)
  else (none, [])

/-- The deferred flush of `Run` after the workers are drained: stack
creation, then album management, then the batched remote deletion (whose
failure returns early, before local deletions), then the one-by-one local
deletions. -/
def runFlush (cfg : Config) (env : CallEnv) (st : UpState) :
    Option String × List ExtCall :=
  let tr1 := stacksPhase cfg env st
  let tr2 := (albumPhase cfg env st).2
  if st.deleteServerList.length > 0 then
    let r3 := DeleteServerAssets cfg env (st.deleteServerList.map RemoteAsset.id)
    match r3.1 with
    | some e =>
      (some ("can't delete server's assets: " ++ e), tr1 ++ tr2 ++ r3.2)
    | none =>
      if st.deleteLocalList.length > 0 then
        let r := DeleteLocalAssets cfg env st
        (r.1, tr1 ++ tr2 ++ r3.2 ++ r.2)
      else (none, tr1 ++ tr2 ++ r3.2)
  else
    if st.deleteLocalList.length > 0 then
      let r := DeleteLocalAssets cfg env st
      (r.1, tr1 ++ tr2 ++ r.2)
    else (none, tr1 ++ tr2)

/-- The external-call trace of a whole `Run`, given the per-file events
the workers emitted.  Modelled from the spec for the concurrency barrier:
`worker.Finish()` / `worker.Wait()` (the `xsync.Worker` pool is not among
the sources under verification) return only after the input channel is
exhausted and every dispatched task has completed, so in every execution
all worker events precede the flush trace. -/
def runTrace (cfg : Config) (env : CallEnv) (st : UpState)
    (workerEvents : List ExtCall) : List ExtCall :=
  workerEvents ++ (runFlush cfg env st).2

/-- Pipeline position of each call: per-file uploads (0), stack creation
(1), album reconciliation (2), remote deletions (3), local deletions (4). -/
def phaseOf : ExtCall → Nat
  | .assetUpload _ => 0
  | .updateAssets _ _ => 1
  | .getAllAlbums => 2
  | .addAssetToAlbum _ _ => 2
  | .createAlbum _ _ => 2
  | .deleteAssets _ => 3
  | .removeLocalFile _ => 4

/-! ## Concurrent accumulation (`xsync.List`) -/

/-- Modelled from the spec: `xsync.List.Push` appends one item under the
list's own lock ("append-only concurrent collections, safe for
concurrent push"); each push is one atomic step, so a concurrent
execution is an interleaving of whole pushes. -/
def xsyncPush (l : List α) (x : α) : List α := l ++ [x]

/-- Execute an interleaving: `sched` names, step by step, the worker
whose next pending push runs; `queues` holds each worker's pending items
in its program order; `acc` is the shared list.  A step naming a worker
with nothing left to push is a no-op (well-formed schedules never do). -/
def pushAll : List Nat → List (List α) → List α → List α
  | [], _, acc => acc
  | w :: sched, queues, acc =>
    match (queues.getD w []) with
    | [] => pushAll sched queues acc
    | x :: t => pushAll sched (queues.set w t) (xsyncPush acc x)

/-- Occurrence count of a worker index in a schedule. -/
def cnt (w : Nat) : List Nat → Nat
  | [] => 0
  | x :: rest => (if x = w then 1 else 0) + cnt w rest

lemma getD_set_self (l : List (List α)) (w : Nat) (t : List α) (h : w < l.length) :
    (l.set w t).getD w [] = t := by
  rw [List.getD_eq_getElem?_getD, List.getElem?_set_eq_of_lt t h]
  rfl

lemma getD_set_ne (l : List (List α)) {w w2 : Nat} (t : List α) (h : w ≠ w2) :
    (l.set w t).getD w2 [] = l.getD w2 [] := by
  rw [List.getD_eq_getElem?_getD, List.getElem?_set_ne h, ← List.getD_eq_getElem?_getD]

lemma lt_length_of_getD_cons (l : List (List α)) (w : Nat) (x : α)
    (t : List α) (h : l.getD w [] = x :: t) : w < l.length := by
  by_contra hge
  rw [List.getD_eq_getElem?_getD, List.getElem?_eq_none_iff.mpr (by omega)] at h
  simp at h

lemma flatten_eq_nil_of_getD (l : List (List α))
    (h : ∀ w, (l.getD w []).length = 0) : l.flatten = [] := by
  induction l with
  | nil => rfl
  | cons q qs ih =>
    have h0 : q.length = 0 := by simpa [List.getD] using h 0
    have hq : q = [] := List.eq_nil_of_length_eq_zero h0
    have hrest : ∀ w, (qs.getD w []).length = 0 := by
      intro w
      simpa [List.getD] using h (w + 1)
    simp [hq, ih hrest]

lemma flatten_perm_of_getD_cons (l : List (List α)) (w : Nat) (x : α)
    (t : List α) (h : l.getD w [] = x :: t) :
    l.flatten.Perm (x :: (l.set w t).flatten) := by
  induction l generalizing w with
  | nil => simp [List.getD] at h
  | cons q qs ih =>
    cases w with
    | zero =>
      have hq : q = x :: t := by simpa [List.getD] using h
      subst hq
      simp
    | succ w =>
      have h2 : qs.getD w [] = x :: t := by simpa [List.getD] using h
      have step1 : (q ++ qs.flatten).Perm (q ++ (x :: (qs.set w t).flatten)) :=
        (ih w h2).append_left q
      have step2 : (q ++ x :: (qs.set w t).flatten).Perm
          (x :: (q ++ (qs.set w t).flatten)) := List.perm_middle
      simpa using step1.trans step2

/-- Any complete interleaving of the workers' pushes yields a permutation
of all queued items appended to the initial list. -/
lemma pushAll_perm (sched : List Nat) :
    ∀ (queues : List (List α)) (acc : List α),
      (∀ w, cnt w sched = (queues.getD w []).length) →
      (pushAll sched queues acc).Perm (acc ++ queues.flatten) := by
  induction sched with
  | nil =>
    intro queues acc h
    have hj : queues.flatten = [] :=
      flatten_eq_nil_of_getD queues (fun w => (h w).symm)
    simp [pushAll, hj]
  | cons w sched ih =>
    intro queues acc h
    have hw : 1 + cnt w sched = (queues.getD w []).length := by
      have := h w
      simpa [cnt] using this
    cases hq : queues.getD w [] with
    | nil => rw [hq] at hw; simp at hw
    | cons x t =>
      rw [hq] at hw
      have hlt : w < queues.length := lt_length_of_getD_cons queues w x t hq
      have hvalid2 : ∀ w2, cnt w2 sched = ((queues.set w t).getD w2 []).length := by
        intro w2
        by_cases hww : w = w2
        · subst hww
          rw [getD_set_self queues w t hlt]
          simp only [List.length_cons] at hw
          omega
        · rw [getD_set_ne queues t hww]
          have h2 := h w2
          simp only [cnt, if_neg hww, Nat.zero_add] at h2
          omega
      have hstep := ih (queues.set w t) (xsyncPush acc x) hvalid2
      have hjoin := flatten_perm_of_getD_cons queues w x t hq
      have hunfold : pushAll (w :: sched) queues acc
          = pushAll sched (queues.set w t) (xsyncPush acc x) := by
        simp only [pushAll, hq]
      rw [hunfold]
      have heq : xsyncPush acc x ++ (queues.set w t).flatten
          = acc ++ (x :: (queues.set w t).flatten) := by simp [xsyncPush]
      rw [heq] at hstep
      exact hstep.trans ((hjoin.symm).append_left acc)

/-- C8: when `N` workers concurrently push `K` items each onto an
`xsync.List`, every complete interleaving of the atomic pushes records
exactly `N * K` items, and the recorded list is a permutation of the
multiset of all pushed items — no lost updates and no duplicated pushes.
`queues` lists each worker's items in its program order; `sched` is any
schedule performing each worker's pushes exactly its queue's length many
times. -/
theorem xsync_concurrent_push (N K : Nat) (queues : List (List ExtCall))
    (sched : List Nat) (hN : queues.length = N)
    (hK : ∀ q ∈ queues, q.length = K)
    (hsched : ∀ w, cnt w sched = (queues.getD w []).length) :
    (pushAll sched queues []).length = N * K ∧
    (pushAll sched queues []).Perm queues.flatten := by
  have hperm : (pushAll sched queues []).Perm ([] ++ queues.flatten) :=
    pushAll_perm sched queues [] hsched
  rw [List.nil_append] at hperm
  refine ⟨?_, hperm⟩
  rw [hperm.length_eq, List.length_flatten]
  have hmap : queues.map List.length = List.replicate N K := by
    rw [List.eq_replicate_iff]
    constructor
    · simp [hN]
    · intro b hb
      obtain ⟨q, hq, rfl⟩ := List.mem_map.mp hb
      exact hK q hq
  rw [hmap, List.sum_replicate, smul_eq_mul]

/-- Witness for C8: two workers with two pushes each, interleaved
0,1,1,0 — four items recorded, a permutation of all pushes. -/
theorem xsync_concurrent_push_witness :
    (pushAll [0, 1, 1, 0]
        [[ExtCall.removeLocalFile "a", ExtCall.removeLocalFile "b"],
         [ExtCall.removeLocalFile "c", ExtCall.removeLocalFile "d"]] []).length = 2 * 2 ∧
    (pushAll [0, 1, 1, 0]
        [[ExtCall.removeLocalFile "a", ExtCall.removeLocalFile "b"],
         [ExtCall.removeLocalFile "c", ExtCall.removeLocalFile "d"]] []).Perm
      [[ExtCall.removeLocalFile "a", ExtCall.removeLocalFile "b"],
       [ExtCall.removeLocalFile "c", ExtCall.removeLocalFile "d"]].flatten := by
  refine xsync_concurrent_push 2 2 _ _ rfl (by decide) ?_
  intro w
  match w with
  | 0 => rfl
  | 1 => rfl
  | (n + 2) =>
    simp [cnt, List.getD]

/-! ## Phase ordering of a run (C7) -/

lemma uploadAsset_trace_phase (cfg : Config) (env : CallEnv) (st : UpState)
    (a : LocalAssetFile) :
    ∀ ev ∈ (UploadAsset cfg env st a).2, phaseOf ev = 0 := by
  intro ev hev
  unfold UploadAsset at hev
  by_cases hd : cfg.dryRun
  · simp [hd] at hev
  · simp only [hd, Bool.not_false, if_true] at hev
    cases hr : env.uploadResult a.fileName with
    | error e =>
      rw [hr] at hev
      simp at hev
      simp [hev, phaseOf]
    | ok resp =>
      rw [hr] at hev
      by_cases hdup : resp.duplicate <;> simp [hdup] at hev <;> simp [hev, phaseOf]

lemma dispatchAdvice_trace_phase (cfg : Config) (env : CallEnv) (st : UpState)
    (a : LocalAssetFile) (advice : Advice) :
    ∀ ev ∈ (dispatchAdvice cfg env st a advice).2.1, phaseOf ev = 0 := by
  obtain ⟨code, sAsset, lAsset⟩ := advice
  intro ev hev
  cases code with
  | NotOnServer =>
    exact uploadAsset_trace_phase cfg env st a ev hev
  | SmallerOnServer =>
    cases sAsset with
    | none => simp [dispatchAdvice] at hev
    | some sa =>
      exact uploadAsset_trace_phase cfg env st _ ev hev
  | SameOnServer =>
    cases sAsset with
    | none => simp [dispatchAdvice] at hev
    | some sa =>
      simp only [dispatchAdvice] at hev
      by_cases hju : sa.justUploaded <;> simp [hju] at hev
  | BetterOnServer =>
    cases sAsset with
    | none => simp [dispatchAdvice] at hev
    | some sa => simp [dispatchAdvice] at hev
  | IDontKnow => simp [dispatchAdvice] at hev

/-- Every event a worker task emits is a per-file upload (phase 0). -/
lemma handleAsset_trace_phase (cfg : Config) (env : CallEnv) (st : UpState)
    (a : LocalAssetFile) :
    ∀ ev ∈ (handleAsset cfg env st a).2.1, phaseOf ev = 0 := by
  intro ev hev
  unfold handleAsset at hev
  split_ifs at hev <;> simp at hev
  case _ =>
    rcases hsu : ShouldUpload (st.assetIndex) (filterUntitled cfg a) with ⟨advOpt, errOpt⟩
    rw [hsu] at hev
    cases errOpt with
    | some e => simp at hev
    | none =>
      cases advOpt with
      | none => simp at hev
      | some advice =>
        simp only at hev
        exact dispatchAdvice_trace_phase cfg env _ _ advice ev hev

lemma stacksFold_phase (b : Bool) (L : List StackRecord) :
    ∀ ev ∈ L.foldr
      (fun s acc => (if b then [ExtCall.updateAssets s.ids s.coverID] else []) ++ acc)
      [], phaseOf ev = 1 := by
  induction L with
  | nil => intro ev hev; simp at hev
  | cons s rest ih =>
    intro ev hev
    simp only [List.foldr_cons, List.mem_append] at hev
    rcases hev with hev | hev
    · cases b with
      | false => simp at hev
      | true =>
        simp only [if_true, List.mem_singleton] at hev
        simp [hev, phaseOf]
    · exact ih ev hev

lemma stacksPhase_trace_phase (cfg : Config) (env : CallEnv) (st : UpState) :
    ∀ ev ∈ stacksPhase cfg env st, phaseOf ev = 1 := by
  intro ev hev
  unfold stacksPhase at hev
  by_cases hc : cfg.createStacks
  · rw [if_pos hc] at hev
    exact stacksFold_phase (!cfg.dryRun) (env.stacksOf st.stacksQueue) ev hev
  · rw [if_neg hc] at hev
    simp at hev

lemma updateExisting_trace_phase (cfg : Config) (env : CallEnv) (album : String)
    (ids : List String) (sals : List AlbumSimplified) :
    ∀ found, ∀ ev ∈ (updateExisting cfg env album ids sals found).2.1,
      phaseOf ev = 2 := by
  induction sals with
  | nil => intro found ev hev; simp [updateExisting] at hev
  | cons sal rest ih =>
    intro found ev hev
    unfold updateExisting at hev
    by_cases hn : sal.albumName = album
    · rw [if_pos hn] at hev
      cases hd : cfg.dryRun with
      | true =>
        simp only [hd, Bool.not_true, Bool.false_eq_true, if_false] at hev
        exact ih true ev hev
      | false =>
        simp only [hd, Bool.not_false, if_true] at hev
        cases hr : env.addAssetToAlbum sal.id ids with
        | error e =>
          rw [hr] at hev
          simp only [List.mem_singleton] at hev
          simp [hev, phaseOf]
        | ok rr =>
          rw [hr] at hev
          simp only [List.mem_cons] at hev
          rcases hev with hev | hev
          · simp [hev, phaseOf]
          · exact ih true ev hev
    · rw [if_neg hn] at hev
      exact ih found ev hev

lemma manageEntries_trace_phase (cfg : Config) (env : CallEnv)
    (sals : List AlbumSimplified) (entries : List (String × List String)) :
    ∀ ev ∈ (manageEntries cfg env sals entries).2, phaseOf ev = 2 := by
  induction entries with
  | nil => intro ev hev; simp [manageEntries] at hev
  | cons entry rest ih =>
    intro ev hev
    obtain ⟨album, ids⟩ := entry
    unfold manageEntries at hev
    rcases hue : updateExisting cfg env album ids sals false with ⟨e?, tr, found⟩
    rw [hue] at hev
    have htr : ∀ ev2 ∈ tr, phaseOf ev2 = 2 := by
      intro ev2 hev2
      have h := updateExisting_trace_phase cfg env album ids sals false ev2
      rw [hue] at h
      exact h hev2
    cases e? with
    | some e => exact htr ev hev
    | none =>
      cases found with
      | true =>
        simp only [List.mem_append] at hev
        rcases hev with hev | hev
        · exact htr ev hev
        · exact ih ev hev
      | false =>
        cases hd : cfg.dryRun with
        | true =>
          simp only [hd, Bool.not_true, Bool.false_eq_true, if_false,
            List.mem_append] at hev
          rcases hev with hev | hev
          · exact htr ev hev
          · exact ih ev hev
        | false =>
          simp only [hd, Bool.not_false, if_true] at hev
          cases hc : env.createAlbum album ids with
          | error e =>
            rw [hc] at hev
            simp only [List.mem_append, List.mem_singleton] at hev
            rcases hev with hev | hev
            · exact htr ev hev
            · simp [hev, phaseOf]
          | ok u =>
            rw [hc] at hev
            simp only [List.mem_append, List.mem_singleton] at hev
            rcases hev with (hev | hev) | hev
            · exact htr ev hev
            · simp [hev, phaseOf]
            · exact ih ev hev

lemma albumPhase_trace_phase (cfg : Config) (env : CallEnv) (st : UpState) :
    ∀ ev ∈ (albumPhase cfg env st).2, phaseOf ev = 2 := by
  intro ev hev
  unfold albumPhase at hev
  by_cases hg : albumPhaseGuard cfg
  · rw [if_pos hg] at hev
    unfold ManageAlbums at hev
    by_cases he : st.updateAlbums.isEmpty
    · simp [he] at hev
    · rw [if_neg he] at hev
      cases hs : env.serverAlbums with
      | error e =>
        rw [hs] at hev
        simp only [List.mem_singleton] at hev
        simp [hev, phaseOf]
      | ok sals =>
        rw [hs] at hev
        simp only [List.mem_cons] at hev
        rcases hev with hev | hev
        · simp [hev, phaseOf]
        · exact manageEntries_trace_phase cfg env sals st.updateAlbums ev hev
  · rw [if_neg hg] at hev
    simp at hev

lemma deleteServerAssets_trace_phase (cfg : Config) (env : CallEnv)
    (ids : List String) :
    ∀ ev ∈ (DeleteServerAssets cfg env ids).2, phaseOf ev = 3 := by
  intro ev hev
  unfold DeleteServerAssets at hev
  cases hd : cfg.dryRun with
  | true =>
    simp only [hd, Bool.not_true, Bool.false_eq_true, if_false] at hev
    simp at hev
  | false =>
    simp only [hd, Bool.not_false, if_true, List.mem_singleton] at hev
    simp [hev, phaseOf]

lemma deleteLocalLoop_trace_phase (cfg : Config) (env : CallEnv)
    (files : List LocalAssetFile) :
    ∀ ev ∈ (deleteLocalLoop cfg env files).2, phaseOf ev = 4 := by
  induction files with
  | nil => intro ev hev; simp [deleteLocalLoop] at hev
  | cons a rest ih =>
    intro ev hev
    unfold deleteLocalLoop at hev
    by_cases hd : cfg.dryRun
    · rw [if_pos hd] at hev
      exact ih ev hev
    · rw [if_neg hd] at hev
      cases hr : env.removeLocal a.fileName with
      | none =>
        rw [hr] at hev
        simp only [List.mem_cons] at hev
        rcases hev with hev | hev
        · simp [hev, phaseOf]
        · exact ih ev hev
      | some e =>
        rw [hr] at hev
        simp only [List.mem_singleton] at hev
        simp [hev, phaseOf]

lemma pairwise_phase_of_const (l : List ExtCall) (c : Nat)
    (h : ∀ x ∈ l, phaseOf x = c) :
    List.Pairwise (fun a b => phaseOf a ≤ phaseOf b) l := by
  induction l with
  | nil => exact List.Pairwise.nil
  | cons a t ih =>
    refine List.Pairwise.cons ?_ (ih (fun x hx => h x (List.mem_cons_of_mem a hx)))
    intro b hb
    rw [h a (List.mem_cons_self a t), h b (List.mem_cons_of_mem a hb)]

lemma pairwise_phase_append {l1 l2 : List ExtCall}
    (h1 : List.Pairwise (fun a b => phaseOf a ≤ phaseOf b) l1)
    (h2 : List.Pairwise (fun a b => phaseOf a ≤ phaseOf b) l2)
    (hcross : ∀ x ∈ l1, ∀ y ∈ l2, phaseOf x ≤ phaseOf y) :
    List.Pairwise (fun a b => phaseOf a ≤ phaseOf b) (l1 ++ l2) :=
  List.pairwise_append.mpr ⟨h1, h2, hcross⟩

lemma sorted_phase_blocks (A B C D : List ExtCall)
    (hA : ∀ x ∈ A, phaseOf x = 1) (hB : ∀ x ∈ B, phaseOf x = 2)
    (hC : ∀ x ∈ C, phaseOf x = 3) (hD : ∀ x ∈ D, phaseOf x = 4) :
    List.Pairwise (fun a b => phaseOf a ≤ phaseOf b) (A ++ B ++ C ++ D) ∧
    ∀ ev ∈ A ++ B ++ C ++ D, 1 ≤ phaseOf ev := by
  have hmem : ∀ ev ∈ A ++ B ++ C ++ D, 1 ≤ phaseOf ev := by
    intro ev hev
    rcases List.mem_append.mp hev with hev | hev
    · rcases List.mem_append.mp hev with hev | hev
      · rcases List.mem_append.mp hev with hev | hev
        · rw [hA ev hev]
        · rw [hB ev hev]; omega
      · rw [hC ev hev]; omega
    · rw [hD ev hev]; omega
  refine ⟨?_, hmem⟩
  refine pairwise_phase_append ?_ (pairwise_phase_of_const D 4 hD) ?_
  · refine pairwise_phase_append ?_ (pairwise_phase_of_const C 3 hC) ?_
    · refine pairwise_phase_append (pairwise_phase_of_const A 1 hA)
        (pairwise_phase_of_const B 2 hB) ?_
      intro x hx y hy
      rw [hA x hx, hB y hy]
      omega
    · intro x hx y hy
      rw [hC y hy]
      rcases List.mem_append.mp hx with hx | hx
      · rw [hA x hx]; omega
      · rw [hB x hx]; omega
  · intro x hx y hy
    rw [hD y hy]
    rcases List.mem_append.mp hx with hx | hx
    · rcases List.mem_append.mp hx with hx | hx
      · rw [hA x hx]; omega
      · rw [hB x hx]; omega
    · rw [hC x hx]; omega

/-- The flush trace decomposes into four phase blocks in phase order. -/
lemma runFlush_trace_decomp (cfg : Config) (env : CallEnv) (st : UpState) :
    ∃ t3 t4, (runFlush cfg env st).2 =
        stacksPhase cfg env st ++ (albumPhase cfg env st).2 ++ t3 ++ t4 ∧
      (∀ ev ∈ t3, phaseOf ev = 3) ∧ (∀ ev ∈ t4, phaseOf ev = 4) := by
  have h3 := deleteServerAssets_trace_phase cfg env
    (st.deleteServerList.map RemoteAsset.id)
  have h4 : ∀ ev ∈ (DeleteLocalAssets cfg env st).2, phaseOf ev = 4 :=
    fun ev hev => deleteLocalLoop_trace_phase cfg env st.deleteLocalList ev hev
  simp only [runFlush]
  by_cases hsrv : st.deleteServerList.length > 0
  · rw [if_pos hsrv]
    cases hr3 : (DeleteServerAssets cfg env (st.deleteServerList.map RemoteAsset.id)).1 with
    | some e =>
      exact ⟨(DeleteServerAssets cfg env (st.deleteServerList.map RemoteAsset.id)).2, [],
        by simp, h3, by simp⟩
    | none =>
      by_cases hloc : st.deleteLocalList.length > 0
      · rw [if_pos hloc]
        exact ⟨(DeleteServerAssets cfg env (st.deleteServerList.map RemoteAsset.id)).2,
          (DeleteLocalAssets cfg env st).2, rfl, h3, h4⟩
      · rw [if_neg hloc]
        exact ⟨(DeleteServerAssets cfg env (st.deleteServerList.map RemoteAsset.id)).2, [],
          by simp, h3, by simp⟩
  · rw [if_neg hsrv]
    by_cases hloc : st.deleteLocalList.length > 0
    · rw [if_pos hloc]
      exact ⟨[], (DeleteLocalAssets cfg env st).2, by simp, by simp, h4⟩
    · rw [if_neg hloc]
      exact ⟨[], [], by simp, by simp, by simp⟩

/-- The flush trace is phase-sorted and consists of phases ≥ 1. -/
lemma runFlush_trace_sorted (cfg : Config) (env : CallEnv) (st : UpState) :
    List.Pairwise (fun a b => phaseOf a ≤ phaseOf b) (runFlush cfg env st).2 ∧
    ∀ ev ∈ (runFlush cfg env st).2, 1 ≤ phaseOf ev := by
  obtain ⟨t3, t4, heq, h3, h4⟩ := runFlush_trace_decomp cfg env st
  rw [heq]
  exact sorted_phase_blocks _ _ t3 t4 (stacksPhase_trace_phase cfg env st)
    (albumPhase_trace_phase cfg env st) h3 h4

/-- C7: worker tasks only emit per-file uploads, and in the trace of a
whole run — any interleaving of worker events, which by the
`worker.Finish`/`worker.Wait` barrier all precede the flush — the phases
are monotone: uploads (0), then stack creation (1), then album
reconciliation (2), then the batched remote deletion (3), then the local
deletions (4).  In particular the flush starts only after every worker
event and deletions come last. -/
theorem run_phases_ordered (cfg : Config) (env : CallEnv) (st : UpState)
    (workerEvents : List ExtCall)
    (hw : ∀ ev ∈ workerEvents, phaseOf ev = 0) :
    (∀ cfg2 env2 st2 a, ∀ ev ∈ (handleAsset cfg2 env2 st2 a).2.1, phaseOf ev = 0) ∧
    List.Pairwise (fun x y => phaseOf x ≤ phaseOf y)
      (runTrace cfg env st workerEvents) := by
  refine ⟨fun cfg2 env2 st2 a => handleAsset_trace_phase cfg2 env2 st2 a, ?_⟩
  unfold runTrace
  obtain ⟨hs, hb⟩ := runFlush_trace_sorted cfg env st
  refine pairwise_phase_append (pairwise_phase_of_const _ 0 hw) hs ?_
  intro x hx y hy
  rw [hw x hx]
  omega

/-- Configuration of the C7 witness run: deletions on, stacks on. -/
def cfgC7 : Config :=
  { googlePhotos := false, delete := true, createAlbumAfterFolder := false,
    importIntoAlbum := "", partnerAlbum := "", importFromAlbum := "",
    createAlbums := true, keepTrashed := false, keepPartner := true,
    keepUntitled := false, useFolderAsAlbumName := false, dryRun := false,
    forceSidecar := false, createStacks := true,
    mimeOK := fun _ => true, dateRangeSet := false,
    dateRangeInRange := fun _ => true }

/-- Oracle of the C7 witness run: everything succeeds, one stack. -/
def envC7 : CallEnv :=
  { uploadResult := fun _ => .ok { id := "new", duplicate := false },
    newUUID := "u", serverAlbums := .ok [],
    addAssetToAlbum := fun _ _ => .ok [],
    createAlbum := fun _ _ => .ok (),
    deleteAssets := fun _ => none, removeLocal := fun _ => none,
    stacksOf := fun _ => [{ coverID := "new", ids := ["new"], names := [] }] }

/-- Remote asset queued for deletion in the C7 witness run. -/
def saC7 : RemoteAsset :=
  { id := "old", originalFileName := "x.jpg", dateTimeOriginal := 0,
    fileSizeInByte := 1, albums := [], justUploaded := false }

/-- Local file queued for deletion in the C7 witness run. -/
def laC7 : LocalAssetFile :=
  { fileName := "y.jpg", title := "y.jpg", dateTaken := 0, size := 1,
    albums := [], fromPartner := false, trashed := false }

/-- State at flush time in the C7 witness run: one remote and one local
deletion queued, one album accumulated. -/
def stC7 : UpState :=
  { assetIndex := { byID := fun _ => none, byName := fun _ => [] },
    deleteServerList := [saC7], deleteLocalList := [laC7],
    mediaUploaded := 0, mediaCount := 0, stacksQueue := [],
    updateAlbums := [("Vacation", ["new"])] }

/-- Witness for C7 at a concrete run: one worker upload event, a state
with one remote and one local deletion queued, one stack, one album. -/
theorem run_phases_ordered_witness :
    List.Pairwise (fun x y => phaseOf x ≤ phaseOf y)
      (runTrace cfgC7 envC7 stC7 [.assetUpload "y.jpg"]) :=
  (run_phases_ordered cfgC7 envC7 stC7 [.assetUpload "y.jpg"] (by decide)).2

/-! ## C4: what a failed upload leaves behind -/

/-- Configuration of the C4 scenario: deletions on, no dry-run. -/
def cfgC4 : Config :=
  { googlePhotos := false, delete := true, createAlbumAfterFolder := false,
    importIntoAlbum := "", partnerAlbum := "", importFromAlbum := "",
    createAlbums := true, keepTrashed := true, keepPartner := true,
    keepUntitled := true, useFolderAsAlbumName := false, dryRun := false,
    forceSidecar := false, createStacks := true,
    mimeOK := fun _ => true, dateRangeSet := false,
    dateRangeInRange := fun _ => true }

/-- The indexed server asset: same name and time, smaller size. -/
def saC4 : RemoteAsset :=
  { id := "srv-4", originalFileName := "IMG_0004.JPG", dateTimeOriginal := 0,
    fileSizeInByte := 1000, albums := [], justUploaded := false }

/-- The local file: larger than `saC4`, so advice is SmallerOnServer. -/
def laC4 : LocalAssetFile :=
  { fileName := "d/IMG_0004.JPG", title := "IMG_0004.JPG", dateTaken := 0,
    size := 2000, albums := [], fromPartner := false, trashed := false }

/-- Pristine state whose index name-matches `laC4` to `saC4`. -/
def stC4 : UpState :=
  { assetIndex :=
      { byID := fun _ => none,
        byName := fun n => if n = "IMG_0004.JPG" then [saC4] else [] },
    deleteServerList := [], deleteLocalList := [], mediaUploaded := 0,
    mediaCount := 0, stacksQueue := [], updateAlbums := [] }

/-- Oracle where the upload fails. -/
def envC4 : CallEnv :=
  { uploadResult := fun _ => .error "network failure", newUUID := "u4",
    serverAlbums := .ok [], addAssetToAlbum := fun _ _ => .ok [],
    createAlbum := fun _ _ => .ok (), deleteAssets := fun _ => none,
    removeLocal := fun _ => none, stacksOf := fun _ => [] }

/-- C4 evaluated at the failing input: although `AssetUpload` fails (so
nothing was uploaded), `handleAsset` still pushes the matched server
asset onto `deleteServerList` and — `Delete` being set — the local file
onto `deleteLocalList`; only the album accumulator and the stack builder
stay untouched.  `UploadAsset` swallows the error, so the
SmallerOnServer branch queues both deletions unconditionally. -/
theorem handleAsset_failed_upload_queues_deletions :
    envC4.uploadResult laC4.fileName = .error "network failure" ∧
    stC4.deleteServerList = [] ∧ stC4.deleteLocalList = [] ∧
    (handleAsset cfgC4 envC4 stC4 laC4).1.deleteServerList = [saC4] ∧
    (handleAsset cfgC4 envC4 stC4 laC4).1.deleteLocalList = [laC4] ∧
    (handleAsset cfgC4 envC4 stC4 laC4).1.updateAlbums = [] ∧
    (handleAsset cfgC4 envC4 stC4 laC4).1.stacksQueue = [] :=
  ⟨rfl, rfl, rfl, rfl, rfl, rfl, rfl⟩

/-! ## C5: a failing album aborts the remaining reconciliation -/

/-- Configuration of the C5 scenario (no dry-run; albums enabled). -/
def cfgC5 : Config :=
  { googlePhotos := false, delete := false, createAlbumAfterFolder := false,
    importIntoAlbum := "", partnerAlbum := "", importFromAlbum := "",
    createAlbums := true, keepTrashed := true, keepPartner := true,
    keepUntitled := true, useFolderAsAlbumName := false, dryRun := false,
    forceSidecar := false, createStacks := false,
    mimeOK := fun _ => true, dateRangeSet := false,
    dateRangeInRange := fun _ => true }

/-- Oracle where creating "AlbumA" fails and everything else succeeds. -/
def envC5 : CallEnv :=
  { uploadResult := fun _ => .ok { id := "n", duplicate := false },
    newUUID := "u5", serverAlbums := .ok [],
    addAssetToAlbum := fun _ _ => .ok [],
    createAlbum := fun name _ => if name = "AlbumA" then .error "boom" else .ok (),
    deleteAssets := fun _ => none, removeLocal := fun _ => none,
    stacksOf := fun _ => [] }

/-- Two accumulated albums; the first will fail. -/
def stC5 : UpState :=
  { assetIndex := { byID := fun _ => none, byName := fun _ => [] },
    deleteServerList := [], deleteLocalList := [], mediaUploaded := 0,
    mediaCount := 0, stacksQueue := [],
    updateAlbums := [("AlbumA", ["id1"]), ("AlbumB", ["id2"])] }

/-- C5 counterexample: when creating "AlbumA" fails, `ManageAlbums`
returns that error at once — the trace shows no call for "AlbumB", so
the engine does NOT continue with the remaining accumulated albums. -/
theorem manageAlbums_abort_cex :
    ManageAlbums cfgC5 envC5 stC5 =
      (some "can't create the album list from the server: boom",
       [.getAllAlbums, .createAlbum "AlbumA" ["id1"]]) ∧
    ExtCall.createAlbum "AlbumB" ["id2"] ∉ (ManageAlbums cfgC5 envC5 stC5).2 := by
  decide

/-- C5 (amended): a failure while updating or creating one album makes
`ManageAlbums` return that error immediately — entries after the failing
one (in accumulator order) are not processed at all, the run's album
phase result being exactly that of the accumulator truncated at the
failing entry; the error is however not fatal to the run, since `Run`
logs it and resets it to nil, so the album phase never contributes an
error to the run's outcome. -/
theorem manageAlbums_first_error_aborts (cfg : Config) (env : CallEnv)
    (sals : List AlbumSimplified) (entry : String × List String)
    (rest : List (String × List String))
    (h : (manageEntries cfg env sals [entry]).1 ≠ none) :
    manageEntries cfg env sals (entry :: rest) = manageEntries cfg env sals [entry] ∧
    ∀ cfg2 env2 st2, (albumPhase cfg2 env2 st2).1 = none := by
  constructor
  · obtain ⟨album, ids⟩ := entry
    simp only [manageEntries] at h ⊢
    rcases hue : updateExisting cfg env album ids sals false with ⟨e?, tr, found⟩
    rw [hue] at h
    cases e? with
    | some e => rfl
    | none =>
      cases found with
      | true => simp at h
      | false =>
        by_cases hd : cfg.dryRun
        · simp [hd] at h
        · cases hc : env.createAlbum album ids with
          | error e => simp [hd, hc]
          | ok u => rw [hc] at h; simp [hd] at h
  · intro cfg2 env2 st2
    unfold albumPhase
    by_cases hg : albumPhaseGuard cfg2
    · rw [if_pos hg]
    · rw [if_neg hg]

/-- Witness for (amended) C5: with the concrete failing accumulator,
reconciliation of AlbumA followed by AlbumB equals reconciliation of
AlbumA alone. -/
theorem manageAlbums_first_error_aborts_witness :
    manageEntries cfgC5 envC5 [] (("AlbumA", ["id1"]) :: [("AlbumB", ["id2"])]) =
      manageEntries cfgC5 envC5 [] [("AlbumA", ["id1"])] :=
  (manageAlbums_first_error_aborts cfgC5 envC5 [] ("AlbumA", ["id1"])
    [("AlbumB", ["id2"])] (by decide)).1

/-! ## C6: a failing local deletion stops the remaining ones -/

/-- Configuration of the C6 scenario (no dry-run). -/
def cfgC6 : Config :=
  { googlePhotos := false, delete := true, createAlbumAfterFolder := false,
    importIntoAlbum := "", partnerAlbum := "", importFromAlbum := "",
    createAlbums := false, keepTrashed := true, keepPartner := true,
    keepUntitled := true, useFolderAsAlbumName := false, dryRun := false,
    forceSidecar := false, createStacks := false,
    mimeOK := fun _ => true, dateRangeSet := false,
    dateRangeInRange := fun _ => true }

/-- Oracle where removing "f1.jpg" fails and any other removal works. -/
def envC6 : CallEnv :=
  { uploadResult := fun _ => .ok { id := "n", duplicate := false },
    newUUID := "u6", serverAlbums := .ok [],
    addAssetToAlbum := fun _ _ => .ok [], createAlbum := fun _ _ => .ok (),
    deleteAssets := fun _ => none,
    removeLocal := fun f => if f = "f1.jpg" then some "permission denied" else none,
    stacksOf := fun _ => [] }

/-- First queued local file — its removal fails. -/
def laC6a : LocalAssetFile :=
  { fileName := "f1.jpg", title := "f1.jpg", dateTaken := 0, size := 1,
    albums := [], fromPartner := false, trashed := false }

/-- Second queued local file — its removal would succeed. -/
def laC6b : LocalAssetFile :=
  { fileName := "f2.jpg", title := "f2.jpg", dateTaken := 0, size := 1,
    albums := [], fromPartner := false, trashed := false }

/-- State with both files queued for local deletion. -/
def stC6 : UpState :=
  { assetIndex := { byID := fun _ => none, byName := fun _ => [] },
    deleteServerList := [], deleteLocalList := [laC6a, laC6b],
    mediaUploaded := 0, mediaCount := 0, stacksQueue := [], updateAlbums := [] }

/-- C6 counterexample: the removal of "f1.jpg" fails, and "f2.jpg" —
whose removal would have succeeded — is never attempted: the trace stops
after the first file, so NOT every queued local file is attempted. -/
theorem deleteLocal_stops_cex :
    DeleteLocalAssets cfgC6 envC6 stC6 =
      (some "permission denied", [.removeLocalFile "f1.jpg"]) ∧
    envC6.removeLocal laC6b.fileName = none := by
  decide

/-- C6 (amended): local deletions are attempted one file at a time, in
queue order, but the first failed removal stops the iteration: exactly
the files up to and including the first failing one are attempted, the
files after it are not, and that first error is what is returned (so an
individual failure is reported only when it is the one that stopped the
loop). -/
theorem deleteLocal_first_failure_stops (cfg : Config) (env : CallEnv)
    (pre : List LocalAssetFile) (bad : LocalAssetFile)
    (post : List LocalAssetFile) (e : String)
    (hdry : cfg.dryRun = false)
    (hpre : ∀ a ∈ pre, env.removeLocal a.fileName = none)
    (hbad : env.removeLocal bad.fileName = some e) :
    deleteLocalLoop cfg env (pre ++ bad :: post) =
      (some e, (pre ++ [bad]).map (fun a => ExtCall.removeLocalFile a.fileName)) := by
  induction pre with
  | nil => simp [deleteLocalLoop, hdry, hbad]
  | cons a t ih =>
    have ha : env.removeLocal a.fileName = none := hpre a (List.mem_cons_self a t)
    have iht := ih (fun x hx => hpre x (List.mem_cons_of_mem a hx))
    simp [deleteLocalLoop, hdry, ha, iht]

/-- Witness for (amended) C6: queue "f2.jpg" (succeeds) then "f1.jpg"
(fails) — both attempted, the error returned, nothing after. -/
theorem deleteLocal_first_failure_stops_witness :
    deleteLocalLoop cfgC6 envC6 ([laC6b] ++ laC6a :: []) =
      (some "permission denied",
       ([laC6b] ++ [laC6a]).map (fun a => ExtCall.removeLocalFile a.fileName)) :=
  deleteLocal_first_failure_stops cfgC6 envC6 [laC6b] laC6a [] "permission denied"
    (by decide) (by decide) (by decide)

/-! ## C10: dry-run issues no mutating call -/

lemma uploadAsset_dry (cfg : Config) (env : CallEnv) (st : UpState)
    (a : LocalAssetFile) (hd : cfg.dryRun = true) :
    (UploadAsset cfg env st a).2 = [] := by
  simp [UploadAsset, hd]

lemma dispatchAdvice_dry (cfg : Config) (env : CallEnv) (st : UpState)
    (a : LocalAssetFile) (advice : Advice) (hd : cfg.dryRun = true) :
    (dispatchAdvice cfg env st a advice).2.1 = [] := by
  obtain ⟨code, sAsset, lAsset⟩ := advice
  cases code with
  | NotOnServer => exact uploadAsset_dry cfg env st a hd
  | SmallerOnServer =>
    cases sAsset with
    | none => rfl
    | some sa => exact uploadAsset_dry cfg env st _ hd
  | SameOnServer =>
    cases sAsset with
    | none => rfl
    | some sa =>
      simp only [dispatchAdvice]
      by_cases hju : sa.justUploaded <;> simp [hju]
  | BetterOnServer =>
    cases sAsset with
    | none => rfl
    | some sa => rfl
  | IDontKnow => rfl

lemma handleAsset_dry (cfg : Config) (env : CallEnv) (st : UpState)
    (a : LocalAssetFile) (hd : cfg.dryRun = true) :
    (handleAsset cfg env st a).2.1 = [] := by
  simp only [handleAsset]
  split_ifs <;> try rfl
  rcases hsu : ShouldUpload st.assetIndex (filterUntitled cfg a) with ⟨advOpt, errOpt⟩
  cases advOpt with
  | none => cases errOpt <;> rfl
  | some advice =>
    cases errOpt with
    | some e => rfl
    | none => exact dispatchAdvice_dry cfg env _ _ advice hd

lemma stacksPhase_dry (cfg : Config) (env : CallEnv) (st : UpState)
    (hd : cfg.dryRun = true) : stacksPhase cfg env st = [] := by
  unfold stacksPhase
  by_cases hc : cfg.createStacks
  · rw [if_pos hc]
    generalize env.stacksOf st.stacksQueue = L
    induction L with
    | nil => rfl
    | cons s rest ih => simp [hd, ih]
  · rw [if_neg hc]

lemma updateExisting_dry (cfg : Config) (env : CallEnv) (album : String)
    (ids : List String) (sals : List AlbumSimplified) (hd : cfg.dryRun = true) :
    ∀ found, ∃ b, updateExisting cfg env album ids sals found = (none, [], b) := by
  induction sals with
  | nil => intro found; exact ⟨found, rfl⟩
  | cons sal rest ih =>
    intro found
    unfold updateExisting
    by_cases hn : sal.albumName = album
    · rw [if_pos hn]
      simp only [hd, Bool.not_true, Bool.false_eq_true, if_false]
      exact ih true
    · rw [if_neg hn]
      exact ih found

lemma manageEntries_dry (cfg : Config) (env : CallEnv)
    (sals : List AlbumSimplified) (entries : List (String × List String))
    (hd : cfg.dryRun = true) :
    manageEntries cfg env sals entries = (none, []) := by
  induction entries with
  | nil => rfl
  | cons entry rest ih =>
    obtain ⟨album, ids⟩ := entry
    obtain ⟨b, hue⟩ := updateExisting_dry cfg env album ids sals hd false
    simp only [manageEntries]
    rw [hue]
    cases b with
    | true => simp [ih]
    | false => simp [hd, ih]

lemma albumPhase_dry_calls (cfg : Config) (env : CallEnv) (st : UpState)
    (hd : cfg.dryRun = true) :
    ∀ ev ∈ (albumPhase cfg env st).2, ev = .getAllAlbums := by
  intro ev hev
  unfold albumPhase at hev
  by_cases hg : albumPhaseGuard cfg
  · rw [if_pos hg] at hev
    unfold ManageAlbums at hev
    by_cases he : st.updateAlbums.isEmpty
    · simp [he] at hev
    · rw [if_neg he] at hev
      cases hs : env.serverAlbums with
      | error e =>
        rw [hs] at hev
        simpa using hev
      | ok sals =>
        rw [hs] at hev
        simp only [manageEntries_dry cfg env sals st.updateAlbums hd] at hev
        simpa using hev
  · rw [if_neg hg] at hev
    simp at hev

lemma deleteServerAssets_dry (cfg : Config) (env : CallEnv) (ids : List String)
    (hd : cfg.dryRun = true) : DeleteServerAssets cfg env ids = (none, []) := by
  simp [DeleteServerAssets, hd]

lemma deleteLocalLoop_dry (cfg : Config) (env : CallEnv)
    (files : List LocalAssetFile) (hd : cfg.dryRun = true) :
    deleteLocalLoop cfg env files = (none, []) := by
  induction files with
  | nil => rfl
  | cons a rest ih => simp [deleteLocalLoop, hd, ih]

lemma runFlush_dry_calls (cfg : Config) (env : CallEnv) (st : UpState)
    (hd : cfg.dryRun = true) :
    ∀ ev ∈ (runFlush cfg env st).2, ev = .getAllAlbums := by
  intro ev hev
  simp only [runFlush, stacksPhase_dry cfg env st hd,
    deleteServerAssets_dry cfg env (st.deleteServerList.map RemoteAsset.id) hd,
    DeleteLocalAssets, deleteLocalLoop_dry cfg env st.deleteLocalList hd,
    List.nil_append, List.append_nil, ite_self] at hev
  exact albumPhase_dry_calls cfg env st hd ev hev

/-- C10: with `DryRun` set, a worker task issues no external call at all,
and the whole flush issues only the read-only album listing — hence no
`AssetUpload`, `DeleteAssets`, `AddAssetToAlbum`, `CreateAlbum` or
`UpdateAssets` call and no local file removal anywhere in the run; all
other effects are confined to the in-memory state. -/
theorem dry_run_no_mutations (cfg : Config) (env : CallEnv) (st : UpState)
    (a : LocalAssetFile) :
    (handleAsset { cfg with dryRun := true } env st a).2.1 = [] ∧
    ∀ ev ∈ (runFlush { cfg with dryRun := true } env st).2, ev.mutates = false := by
  constructor
  · exact handleAsset_dry { cfg with dryRun := true } env st a rfl
  · intro ev hev
    rw [runFlush_dry_calls { cfg with dryRun := true } env st rfl ev hev]
    rfl

/-- Witness for C10 at the concrete C7 run data: a dry-run worker task
emits nothing, and the album listing — the one flush call this dry run
makes — is non-mutating. -/
theorem dry_run_no_mutations_witness :
    (handleAsset { cfgC7 with dryRun := true } envC7 stC7 laC7).2.1 = [] ∧
    ExtCall.getAllAlbums.mutates = false :=
  ⟨(dry_run_no_mutations cfgC7 envC7 stC7 laC7).1,
    (dry_run_no_mutations cfgC7 envC7 stC7 laC7).2 ExtCall.getAllAlbums (by decide)⟩

end ImmichGo
